import Mathlib

/-!
Shallow embedding of the sports-day tracker (src/src/App.js).

The program keeps three Firestore collections (events, participants,
scores).  We model each collection as a list of records whose `id` field is
the Firestore document id.  Mutations are modelled sequentially, in the
order the source awaits them; the store snapshots the components subscribe
to are assumed to reflect the current store (the sequential-consistency
reading of the claims).  JavaScript numbers are modelled as rationals (ℚ):
every literal the claims exercise is exactly representable, and the only
arithmetic performed on scores is addition, division by 1000 and
comparison.  (JS `parseFloat` returns NaN on a digit-free string such as
"."; ℚ has no NaN, so the parse function below is only meaningful on
candidates that contain a digit, which is what the claims quantify over.)
-/

/-- A document of the `sportsday_scores` collection (App.js scoreData:
eventId, participantId, score, timestamp; `id` is the Firestore doc id). -/
structure Score where
  id : String
  eventId : String
  participantId : String
  score : ℚ
  timestamp : Nat
deriving DecidableEq

/-- A document of the `sportsday_events` collection. -/
structure Event where
  id : String
  name : String
  type : String
deriving DecidableEq

/-- A document of the `sportsday_participants` collection. -/
structure Participant where
  id : String
  name : String
  house : String
deriving DecidableEq

/-- Firestore `updateDoc` on the scores collection: the document with the
given id gets all four fields of the new scoreData (the id is unchanged). -/
def updateScoreDoc (store : List Score) (i : String) (eventId participantId : String)
    (v : ℚ) (now : Nat) : List Score :=
  store.map (fun s => if s.id = i then ⟨i, eventId, participantId, v, now⟩ else s)

/-- Firestore `deleteDoc` on the scores collection (a no-op when no document
has the id, as in Firestore). -/
def deleteScoreDoc (store : List Score) (i : String) : List Score :=
  store.filter (fun s => !(s.id == i))

/-- Firestore `addDoc` on the scores collection: appends a new document under
a store-generated fresh id. -/
def addScoreDoc (store : List Score) (fresh : String) (eventId participantId : String)
    (v : ℚ) (now : Nat) : List Score :=
  store ++ [⟨fresh, eventId, participantId, v, now⟩]

/-- The ids of the score documents, in store order. -/
def scoreIds (store : List Score) : List String :=
  store.map Score.id

/-- Does a score document belong to the (eventId, participantId) pair? -/
def pairB (eventId participantId : String) (s : Score) : Bool :=
  s.eventId == eventId && s.participantId == participantId

/-- How many live score documents the store holds for one pair. -/
def countPair (store : List Score) (eventId participantId : String) : Nat :=
  store.countP (pairB eventId participantId)

/-- Executable form of the at-most-one-score-per-pair invariant: no two
positions of the store carry the same (eventId, participantId) pair. -/
def uniquePairsB : List Score → Bool
  | [] => true
  | s :: rest => rest.all (fun t => !(pairB s.eventId s.participantId t)) && uniquePairsB rest

/-! ### The numeric input filter (ScoreEntry.handleScoreChange)

The source keeps the per-participant text being edited in a JS object
`scores` and only stores a candidate that passes
`value === '' || /^\d*\.?\d*$/.test(value)`.  We model the object as an
association list and the regular expression as a Boolean scanner. -/

/-- Tail of the regex after the optional dot: `\d*$`. -/
def decTail : List Char → Bool
  | [] => true
  | c :: cs => c.isDigit && decTail cs

/-- The regex `/^\d*\.?\d*$/` of handleScoreChange, over the string's
characters: digits, then an optional single dot, then digits. -/
def decPat : List Char → Bool
  | [] => true
  | c :: cs => if c.isDigit then decPat cs else (c == '.') && decTail cs

/-- The regex `/^\d*\.?\d*$/` applied to a candidate string. -/
def decPatB (s : String) : Bool :=
  decPat s.data

/-- JS object property write `scores[pid] = v` on the association-list model
(overwrites in place, appends a new key at the end). -/
def setAssoc : List (String × String) → String → String → List (String × String)
  | [], pid, v => [(pid, v)]
  | (k, x) :: rest, pid, v =>
    if k = pid then (k, v) :: rest else (k, x) :: setAssoc rest pid v

/-- JS object property read `scores[pid]` on the association-list model. -/
def lookupAssoc : List (String × String) → String → Option String
  | [], _ => none
  | (k, x) :: rest, pid => if k = pid then some x else lookupAssoc rest pid

/-- ScoreEntry.handleScoreChange (App.js 577-582): the candidate is stored in
the edit state only when it is empty or matches the numeric pattern. -/
def handleScoreChange (scores : List (String × String)) (pid value : String) :
    List (String × String) :=
  if value = "" || decPatB value then setAssoc scores pid value else scores

/-! ### Parsing a candidate (JS parseFloat on a pattern-matching string) -/

/-- Numeric value of a decimal digit. -/
def digitVal (c : Char) : Nat :=
  c.toNat - 48

/-- Value of the integer digits, most significant first. -/
def natOfDigits : List Char → Nat → Nat
  | [], acc => acc
  | c :: cs, acc => natOfDigits cs (acc * 10 + digitVal c)

/-- Value of the fraction digits after the dot. -/
def fracOfDigits : List Char → ℚ
  | [] => 0
  | c :: cs => ((digitVal c : ℚ) + fracOfDigits cs) / 10

/-- JS `parseFloat` restricted to the strings the edit filter lets through:
integer digits, an optional dot, fraction digits.  (On a digit-free string
parseFloat yields NaN, which ℚ cannot represent; the claims only quantify
over numeric candidates.) -/
def parseDec (s : String) : ℚ :=
  let ip := s.data.takeWhile Char.isDigit
  match s.data.dropWhile Char.isDigit with
  | [] => (natOfDigits ip 0 : ℚ)
  | _ :: fp => (natOfDigits ip 0 : ℚ) + fracOfDigits fp

/-! ### The score upsert (ScoreEntry.handleSubmit, App.js 584-624)

handleSubmit iterates over the participant list; for each participant it
reads the edited candidate (`scores[participant.id]`, modelled as
`scoresMap`) and the id of the participant's existing score document for
this event (`existingScores[participant.id]`, filled by the event-filtered
subscription, modelled as `existingScores`).  A non-empty candidate is
parsed and written over the existing document or added as a new one; an
empty or absent candidate deletes the existing document if there is one. -/

/-- One iteration of the handleSubmit loop, for the participant `pid`. -/
def scoreEntryStep (eventId : String) (now : Nat)
    (scoresMap : String → Option String) (existingScores : String → Option String)
    (fresh : String) (store : List Score) (pid : String) : List Score :=
  match scoresMap pid with
  | some v =>
    if v = "" then
      match existingScores pid with
      | some i => deleteScoreDoc store i
      | none => store
    else
      match existingScores pid with
      | some i => updateScoreDoc store i eventId pid (parseDec v) now
      | none => addScoreDoc store fresh eventId pid (parseDec v) now
  | none =>
    match existingScores pid with
    | some i => deleteScoreDoc store i
    | none => store

/-- ScoreEntry.handleSubmit: the sequential loop over the participant list.
`freshIds` supplies the ids Firestore would mint for the `addDoc` calls, one
per iteration. -/
def handleSubmitScores (eventId : String) (now : Nat)
    (scoresMap : String → Option String) (existingScores : String → Option String) :
    List Participant → List String → List Score → List Score
  | [], _, store => store
  | _ :: _, [], store => store
  | p :: ps, f :: fs, store =>
    handleSubmitScores eventId now scoresMap existingScores ps fs
      (scoreEntryStep eventId now scoresMap existingScores f store p.id)

/-- The subscription state `existingScores` is in step with the store when,
for this participant, it holds the id of a score document of this event
exactly when one exists. -/
def validForB (eventId : String) (existingScores : String → Option String)
    (store : List Score) (pid : String) : Bool :=
  match existingScores pid with
  | some i => store.any (fun s => s.id == i && s.eventId == eventId && s.participantId == pid)
  | none => store.all (fun s => !(s.eventId == eventId && s.participantId == pid))

/-! ### Cascade deletes (EventList.handleDeleteEvent 144-165,
ParticipantList.handleDeleteParticipant 257-278)

Each confirmed delete removes the parent document, queries the score
documents referencing it and deletes each of them. -/

/-- EventList.handleDeleteEvent: delete the event document, then every score
document whose eventId matches. -/
def handleDeleteEvent (eventId : String) (events : List Event) (scores : List Score) :
    List Event × List Score :=
  let events' := events.filter (fun ev => !(ev.id == eventId))
  let targets := (scores.filter (fun s => s.eventId == eventId)).map Score.id
  (events', targets.foldl (fun st i => deleteScoreDoc st i) scores)

/-- ParticipantList.handleDeleteParticipant: delete the participant document,
then every score document whose participantId matches. -/
def handleDeleteParticipant (participantId : String) (participants : List Participant)
    (scores : List Score) : List Participant × List Score :=
  let participants' := participants.filter (fun p => !(p.id == participantId))
  let targets := (scores.filter (fun s => s.participantId == participantId)).map Score.id
  (participants', targets.foldl (fun st i => deleteScoreDoc st i) scores)

/-! ### Ranking and standings (EventScoresView 713-717, OverallStandings 779-814)

Both views call JS `Array.prototype.sort` with a numeric comparator
(`b.score - a.score`, `b.totalScore - a.totalScore`): a stable sort that
puts larger keys first and keeps equal keys in input order (sort is
specified stable since ES2019).  `sortDescBy` is that sort. -/

/-- Stable descending insertion: the inserted element goes before the first
element whose key is not larger (so an earlier input element stays before a
later one with an equal key). -/
def insertDescBy {α : Type} (key : α → ℚ) (x : α) : List α → List α
  | [] => [x]
  | y :: ys => if key y ≤ key x then x :: y :: ys else y :: insertDescBy key x ys

/-- Stable sort, larger keys first: the model of `sort((a, b) => key b - key a)`. -/
def sortDescBy {α : Type} (key : α → ℚ) : List α → List α
  | [] => []
  | x :: xs => insertDescBy key x (sortDescBy key xs)

/-- EventScoresView: the score documents of one event (the event-filtered
query), sorted by score, highest first. -/
def eventScoresView (eventId : String) (store : List Score) : List Score :=
  sortDescBy Score.score (store.filter (fun s => s.eventId == eventId))

/-- A row of the derived overall-standings table. -/
structure Standing where
  participantId : String
  name : String
  house : String
  totalScore : ℚ
deriving DecidableEq

/-- One step of the total-score accumulation
(`if (participantScores[pid]) { += } else { = }`): the stored total is
replaced by `v` when it is absent or zero (JS truthiness), and incremented
otherwise; a new participant key is appended in first-occurrence order. -/
def bumpTotal : List (String × ℚ) → String → ℚ → List (String × ℚ)
  | [], pid, v => [(pid, v)]
  | (k, t) :: rest, pid, v =>
    if k = pid then (k, if t ≠ 0 then t + v else v) :: rest
    else (k, t) :: bumpTotal rest pid v

/-- The `participantScores` object of OverallStandings: every score document
folded into per-participant totals, keys in first-occurrence order
(`Object.keys` insertion order). -/
def participantTotals (scores : List Score) : List (String × ℚ) :=
  scores.foldl (fun m s => bumpTotal m s.participantId s.score) []

/-- `participantsMap[pid]?.name || 'Unknown'` (an absent participant, or a
falsy empty name, yields the placeholder). -/
def standingName (participants : List Participant) (pid : String) : String :=
  match participants.find? (fun p => p.id == pid) with
  | some p => if p.name = "" then "Unknown" else p.name
  | none => "Unknown"

/-- `participantsMap[pid]?.house || 'N/A'`. -/
def standingHouse (participants : List Participant) (pid : String) : String :=
  match participants.find? (fun p => p.id == pid) with
  | some p => if p.house = "" then "N/A" else p.house
  | none => "N/A"

/-- OverallStandings: totals per participant joined with participant
metadata, sorted by total score, highest first. -/
def overallStandings (scores : List Score) (participants : List Participant) :
    List Standing :=
  sortDescBy Standing.totalScore
    ((participantTotals scores).map (fun kv =>
      ⟨kv.1, standingName participants kv.1, standingHouse participants kv.1, kv.2⟩))

/-- Sum of a participant's score values across all events (what the spec
calls the participant's totalScore). -/
def sumScoresFor (scores : List Score) (pid : String) : ℚ :=
  ((scores.filter (fun s => s.participantId == pid)).map Score.score).sum

/-! ### The stopwatch (Stopwatch component, App.js 856-999) -/

/-- The stopwatch's component state: running flag, elapsed milliseconds,
lap list and the save-status message. -/
structure SWState where
  isRunning : Bool
  elapsedTime : Nat
  laps : List Nat
  saveMessage : String
deriving DecidableEq

/-- Stopwatch.startStopwatch. -/
def startStopwatch (s : SWState) : SWState :=
  { s with isRunning := true, saveMessage := "" }

/-- Stopwatch.stopStopwatch. -/
def stopStopwatch (s : SWState) : SWState :=
  { s with isRunning := false }

/-- Stopwatch.resetStopwatch: back to idle, elapsed 0, laps cleared. -/
def resetStopwatch (s : SWState) : SWState :=
  { s with isRunning := false, elapsedTime := 0, laps := [], saveMessage := "" }

/-- Stopwatch.lapStopwatch: appends the current elapsed value while running,
does nothing otherwise. -/
def lapStopwatch (s : SWState) : SWState :=
  if s.isRunning then { s with laps := s.laps ++ [s.elapsedTime] } else s

/-- Stopwatch.handleSaveScore (App.js 947-999): with an event and a
participant selected and a non-zero elapsed time, converts the elapsed
milliseconds to seconds and upserts it as the pair's score (point query
first, update of the first hit, otherwise addDoc); otherwise it only sets a
message.  Returns the store and the saveMessage. -/
def handleSaveScore (selectedEvent selectedParticipant : String) (elapsedTime : Nat)
    (now : Nat) (fresh : String) (store : List Score) : List Score × String :=
  if selectedEvent = "" ∨ selectedParticipant = "" then
    (store, "Please select both an event and a participant.")
  else if elapsedTime = 0 then
    (store, "Stopwatch time is 0. Please run the stopwatch first.")
  else
    let scoreInSeconds : ℚ := (elapsedTime : ℚ) / 1000
    match store.filter (pairB selectedEvent selectedParticipant) with
    | [] =>
      (addScoreDoc store fresh selectedEvent selectedParticipant scoreInSeconds now,
        "Score saved successfully!")
    | m :: _ =>
      (updateScoreDoc store m.id selectedEvent selectedParticipant scoreInSeconds now,
        "Score updated successfully!")

/-! ### The display-sampling effect (App.js 900-911)

The effect with dependencies [isRunning, elapsedTime] re-runs after every
committed change: its cleanup clears the pending interval and its body
starts a new one exactly when `isRunning` holds.  `samplingEffect` is that
net effect; an observable state is one in which the effect has run after
the last state change, so reachable states are action-then-effect chains. -/

/-- The part of the stopwatch state the sampling effect looks at: the
running flag and whether a 10 ms interval is currently scheduled. -/
structure TimerSys where
  isRunning : Bool
  intervalActive : Bool
deriving DecidableEq

/-- The settled outcome of the [isRunning, elapsedTime] effect: the previous
interval is cleared and a new one exists exactly while running. -/
def samplingEffect (t : TimerSys) : TimerSys :=
  { t with intervalActive := t.isRunning }

/-- The events that change the effect's dependencies: the start/stop/reset
handlers and an interval tick (which updates elapsedTime). -/
inductive TimerAction
  | start
  | stop
  | reset
  | tick

/-- An action followed by the effect run React performs after the commit. -/
def applyTimerAction : TimerAction → TimerSys → TimerSys
  | .start, t => samplingEffect { t with isRunning := true }
  | .stop, t => samplingEffect { t with isRunning := false }
  | .reset, t => samplingEffect { t with isRunning := false }
  | .tick, t => samplingEffect t

/-- The observable states of the stopwatch's timer subsystem: the initial
idle state and everything an action-then-effect step reaches. -/
inductive ReachableTimer : TimerSys → Prop
  | init : ReachableTimer ⟨false, false⟩
  | step : ∀ {t : TimerSys}, ReachableTimer t → ∀ a : TimerAction,
      ReachableTimer (applyTimerAction a t)

/-! ## Helper lemmas -/

theorem countP_congr_mem {α : Type} {p q : α → Bool} :
    ∀ {l : List α}, (∀ a ∈ l, p a = q a) → l.countP p = l.countP q := by
  intro l
  induction l with
  | nil => intro _; rfl
  | cons a l ih =>
    intro h
    rw [List.countP_cons, List.countP_cons, ih (fun b hb => h b (List.mem_cons_of_mem a hb)),
      h a (List.mem_cons_self a l)]

theorem countP_not_add {α : Type} (p : α → Bool) (l : List α) :
    l.countP (fun a => !(p a)) + l.countP p = l.length := by
  induction l with
  | nil => simp
  | cons a l ih =>
    by_cases h : p a <;> simp [List.countP_cons, h] <;> omega

theorem perm_insertDescBy {α : Type} (key : α → ℚ) (x : α) (l : List α) :
    (insertDescBy key x l).Perm (x :: l) := by
  induction l with
  | nil => simp [insertDescBy]
  | cons y ys ih =>
    rw [insertDescBy]
    by_cases h : key y ≤ key x
    · rw [if_pos h]
    · rw [if_neg h]
      exact (ih.cons y).trans (List.Perm.swap x y ys)

theorem perm_sortDescBy {α : Type} (key : α → ℚ) (l : List α) :
    (sortDescBy key l).Perm l := by
  induction l with
  | nil => simp [sortDescBy]
  | cons x xs ih => exact (perm_insertDescBy key x (sortDescBy key xs)).trans (ih.cons x)

theorem pairwise_insertDescBy {α : Type} (key : α → ℚ) (x : α) (l : List α)
    (h : l.Pairwise (fun a b => key b ≤ key a)) :
    (insertDescBy key x l).Pairwise (fun a b => key b ≤ key a) := by
  induction l with
  | nil => simp [insertDescBy]
  | cons y ys ih =>
    rcases List.pairwise_cons.mp h with ⟨hy, hys⟩
    rw [insertDescBy]
    by_cases hle : key y ≤ key x
    · rw [if_pos hle]
      refine List.pairwise_cons.mpr ⟨?_, h⟩
      intro z hz
      rcases List.mem_cons.mp hz with rfl | hz
      · exact hle
      · exact le_trans (hy z hz) hle
    · rw [if_neg hle]
      refine List.pairwise_cons.mpr ⟨?_, ih hys⟩
      intro z hz
      rcases List.mem_cons.mp ((perm_insertDescBy key x ys).mem_iff.mp hz) with rfl | hz
      · exact le_of_lt (lt_of_not_le hle)
      · exact hy z hz

theorem pairwise_sortDescBy {α : Type} (key : α → ℚ) (l : List α) :
    (sortDescBy key l).Pairwise (fun a b => key b ≤ key a) := by
  induction l with
  | nil => simp [sortDescBy]
  | cons x xs ih => exact pairwise_insertDescBy key x (sortDescBy key xs) ih

theorem filter_insertDescBy {α : Type} (key : α → ℚ) (x : α) (l : List α) (v : ℚ) :
    (insertDescBy key x l).filter (fun a => key a == v) =
      (x :: l).filter (fun a => key a == v) := by
  induction l with
  | nil => rfl
  | cons y ys ih =>
    rw [insertDescBy]
    by_cases hle : key y ≤ key x
    · rw [if_pos hle]
    · rw [if_neg hle]
      by_cases hx : key x = v
      · have hy : ¬ key y = v := by
          intro hy
          exact hle (le_of_eq (hy.trans hx.symm))
        simp [List.filter_cons, hx, hy, ih]
      · simp [List.filter_cons, hx, ih]

theorem filter_sortDescBy {α : Type} (key : α → ℚ) (l : List α) (v : ℚ) :
    (sortDescBy key l).filter (fun a => key a == v) = l.filter (fun a => key a == v) := by
  induction l with
  | nil => simp [sortDescBy]
  | cons x xs ih =>
    rw [sortDescBy, filter_insertDescBy]
    simp only [List.filter_cons, ih]

theorem scoreIds_updateScoreDoc (store : List Score) (i eventId participantId : String)
    (v : ℚ) (now : Nat) :
    scoreIds (updateScoreDoc store i eventId participantId v now) = scoreIds store := by
  unfold scoreIds updateScoreDoc
  rw [List.map_map]
  apply List.map_congr_left
  intro s _
  by_cases h : s.id = i <;> simp [Function.comp, h]

theorem mem_updateScoreDoc_of_ne (store : List Score) (i eventId participantId : String)
    (v : ℚ) (now : Nat) (s : Score) (hs : s ∈ store) (hne : s.id ≠ i) :
    s ∈ updateScoreDoc store i eventId participantId v now :=
  List.mem_map.mpr ⟨s, hs, if_neg hne⟩

theorem updated_mem_updateScoreDoc (store : List Score) (i eventId participantId : String)
    (v : ℚ) (now : Nat) (r : Score) (hr : r ∈ store) (hid : r.id = i) :
    (⟨i, eventId, participantId, v, now⟩ : Score) ∈
      updateScoreDoc store i eventId participantId v now :=
  List.mem_map.mpr ⟨r, hr, if_pos hid⟩

theorem length_updateScoreDoc (store : List Score) (i eventId participantId : String)
    (v : ℚ) (now : Nat) :
    (updateScoreDoc store i eventId participantId v now).length = store.length :=
  List.length_map store _

theorem countPair_updateScoreDoc (store : List Score) (i eventId participantId : String)
    (v : ℚ) (now : Nat) (hN : (scoreIds store).Nodup) (r : Score) (hr : r ∈ store)
    (hid : r.id = i) (hE : r.eventId = eventId) (hP : r.participantId = participantId) :
    ∀ E P, countPair (updateScoreDoc store i eventId participantId v now) E P =
      countPair store E P := by
  intro E P
  unfold countPair updateScoreDoc
  rw [List.countP_map]
  apply countP_congr_mem
  intro s hs
  by_cases h : s.id = i
  · have hsr : s = r := List.inj_on_of_nodup_map hN hs hr (by rw [h, hid])
    subst hsr
    simp [Function.comp, pairB, h, hE, hP]
  · simp [Function.comp, h]

theorem mem_deleteScoreDoc (store : List Score) (i : String) (s : Score) :
    s ∈ deleteScoreDoc store i ↔ s ∈ store ∧ s.id ≠ i := by
  unfold deleteScoreDoc
  simp [List.mem_filter]

theorem nodup_deleteScoreDoc (store : List Score) (i : String)
    (hN : (scoreIds store).Nodup) : (scoreIds (deleteScoreDoc store i)).Nodup :=
  List.Sublist.nodup (List.Sublist.map Score.id (List.filter_sublist store)) hN

theorem countPair_deleteScoreDoc_le (store : List Score) (i : String) (E P : String) :
    countPair (deleteScoreDoc store i) E P ≤ countPair store E P := by
  unfold countPair deleteScoreDoc
  rw [List.countP_filter]
  apply List.countP_mono_left
  intro s _ h
  exact (Bool.and_eq_true _ _).mp h |>.1

theorem length_deleteScoreDoc (store : List Score) (i : String)
    (hN : (scoreIds store).Nodup) (r : Score) (hr : r ∈ store) (hid : r.id = i) :
    (deleteScoreDoc store i).length + 1 = store.length := by
  unfold deleteScoreDoc
  rw [← List.countP_eq_length_filter]
  have hcount : store.countP (fun s => s.id == i) = 1 := by
    have hmem : i ∈ scoreIds store := by
      rw [← hid]
      exact List.mem_map_of_mem Score.id hr
    have h1 := List.count_eq_one_of_mem hN hmem
    rw [List.count_eq_countP] at h1
    have hcp : List.countP (fun x => x == i) (scoreIds store)
        = List.countP (fun s => s.id == i) store := by
      rw [scoreIds, List.countP_map]
      rfl
    rw [← hcp]
    exact h1
  have := countP_not_add (fun s => s.id == i) store
  omega

theorem mem_addScoreDoc (store : List Score) (fresh eventId participantId : String)
    (v : ℚ) (now : Nat) (s : Score) :
    s ∈ addScoreDoc store fresh eventId participantId v now ↔
      s ∈ store ∨ s = ⟨fresh, eventId, participantId, v, now⟩ := by
  unfold addScoreDoc
  simp [List.mem_append]

theorem scoreIds_addScoreDoc (store : List Score) (fresh eventId participantId : String)
    (v : ℚ) (now : Nat) :
    scoreIds (addScoreDoc store fresh eventId participantId v now) =
      scoreIds store ++ [fresh] := by
  simp [scoreIds, addScoreDoc]

theorem nodup_addScoreDoc (store : List Score) (fresh eventId participantId : String)
    (v : ℚ) (now : Nat) (hN : (scoreIds store).Nodup) (hF : fresh ∉ scoreIds store) :
    (scoreIds (addScoreDoc store fresh eventId participantId v now)).Nodup := by
  rw [scoreIds_addScoreDoc, List.nodup_append]
  refine ⟨hN, List.nodup_singleton fresh, ?_⟩
  intro x hx hx'
  rw [List.mem_singleton] at hx'
  exact hF (hx' ▸ hx)

theorem countPair_addScoreDoc (store : List Score) (fresh eventId participantId : String)
    (v : ℚ) (now : Nat) (E P : String) :
    countPair (addScoreDoc store fresh eventId participantId v now) E P =
      countPair store E P +
        (if pairB E P ⟨fresh, eventId, participantId, v, now⟩ then 1 else 0) := by
  unfold countPair addScoreDoc
  rw [List.countP_append]
  simp [List.countP_cons]

theorem length_addScoreDoc (store : List Score) (fresh eventId participantId : String)
    (v : ℚ) (now : Nat) :
    (addScoreDoc store fresh eventId participantId v now).length = store.length + 1 := by
  simp [addScoreDoc]

theorem pairB_eq_true_iff (E P : String) (s : Score) :
    pairB E P s = true ↔ s.eventId = E ∧ s.participantId = P := by
  simp [pairB]

theorem uniquePairsB_iff (store : List Score) :
    uniquePairsB store = true ↔ ∀ E P, countPair store E P ≤ 1 := by
  induction store with
  | nil => simp [uniquePairsB, countPair]
  | cons s rest ih =>
    rw [uniquePairsB, Bool.and_eq_true, List.all_eq_true, ih]
    constructor
    · rintro ⟨hall, hrest⟩ E P
      rw [countPair, List.countP_cons]
      by_cases hp : pairB E P s = true
      · rcases (pairB_eq_true_iff E P s).mp hp with ⟨hE, hP⟩
        have h0 : rest.countP (pairB E P) = 0 := by
          rw [List.countP_eq_zero]
          intro t ht
          have hft := hall t ht
          rw [Bool.not_eq_true'] at hft
          rw [← hE, ← hP]
          simp [hft]
        rw [h0, if_pos hp]
      · rw [if_neg hp]
        have := hrest E P
        rw [countPair] at this
        omega
    · intro h
      constructor
      · intro t ht
        rw [Bool.not_eq_true']
        by_contra hc
        rw [Bool.not_eq_false] at hc
        have h2 := h s.eventId s.participantId
        rw [countPair, List.countP_cons] at h2
        have hself : pairB s.eventId s.participantId s = true := by
          simp [pairB]
        have hpos : 0 < rest.countP (pairB s.eventId s.participantId) :=
          List.countP_pos_iff.mpr ⟨t, ht, hc⟩
        rw [if_pos hself] at h2
        omega
      · intro E P
        have := h E P
        rw [countPair, List.countP_cons] at this
        rw [countPair]
        omega

theorem validForB_some (eventId : String) (existingScores : String → Option String)
    (store : List Score) (pid i : String)
    (h : validForB eventId existingScores store pid = true)
    (hi : existingScores pid = some i) :
    ∃ s ∈ store, s.id = i ∧ s.eventId = eventId ∧ s.participantId = pid := by
  unfold validForB at h
  rw [hi] at h
  rw [List.any_eq_true] at h
  rcases h with ⟨s, hs, hp⟩
  refine ⟨s, hs, ?_⟩
  simpa [Bool.and_eq_true, and_assoc] using hp

theorem validForB_none (eventId : String) (existingScores : String → Option String)
    (store : List Score) (pid : String)
    (h : validForB eventId existingScores store pid = true)
    (hn : existingScores pid = none) :
    ∀ s ∈ store, ¬(s.eventId = eventId ∧ s.participantId = pid) := by
  unfold validForB at h
  rw [hn] at h
  rw [List.all_eq_true] at h
  intro s hs hcontra
  have hb := h s hs
  rcases hcontra with ⟨h1, h2⟩
  rw [Bool.not_eq_true'] at hb
  simp [h1, h2] at hb

theorem countPair_eq_zero_of_validForB_none (eventId : String)
    (existingScores : String → Option String) (store : List Score) (pid : String)
    (h : validForB eventId existingScores store pid = true)
    (hn : existingScores pid = none) :
    countPair store eventId pid = 0 := by
  rw [countPair, List.countP_eq_zero]
  intro s hs hp
  exact validForB_none eventId existingScores store pid h hn s hs
    ((pairB_eq_true_iff eventId pid s).mp hp)

theorem scoreEntryStep_facts (eventId : String) (now : Nat)
    (scoresMap existingScores : String → Option String)
    (fresh : String) (store : List Score) (pid : String)
    (hU : ∀ E P, countPair store E P ≤ 1) (hN : (scoreIds store).Nodup)
    (hV : validForB eventId existingScores store pid = true)
    (hF : fresh ∉ scoreIds store) :
    (∀ E P,
      countPair (scoreEntryStep eventId now scoresMap existingScores fresh store pid) E P ≤ 1) ∧
    (scoreIds (scoreEntryStep eventId now scoresMap existingScores fresh store pid)).Nodup ∧
    (∀ x ∈ scoreIds (scoreEntryStep eventId now scoresMap existingScores fresh store pid),
      x ∈ scoreIds store ∨ x = fresh) ∧
    (∀ s ∈ store, s.participantId ≠ pid →
      s ∈ scoreEntryStep eventId now scoresMap existingScores fresh store pid) ∧
    (∀ E P, P ≠ pid →
      countPair (scoreEntryStep eventId now scoresMap existingScores fresh store pid) E P ≤
        countPair store E P) := by
  have hnoop :
      (∀ E P, countPair store E P ≤ 1) ∧ (scoreIds store).Nodup ∧
      (∀ x ∈ scoreIds store, x ∈ scoreIds store ∨ x = fresh) ∧
      (∀ s ∈ store, s.participantId ≠ pid → s ∈ store) ∧
      (∀ E P, P ≠ pid → countPair store E P ≤ countPair store E P) :=
    ⟨hU, hN, fun x hx => Or.inl hx, fun s hs _ => hs, fun _ _ _ => le_refl _⟩
  have hdel : ∀ i : String, existingScores pid = some i →
      (∀ E P, countPair (deleteScoreDoc store i) E P ≤ 1) ∧
      (scoreIds (deleteScoreDoc store i)).Nodup ∧
      (∀ x ∈ scoreIds (deleteScoreDoc store i), x ∈ scoreIds store ∨ x = fresh) ∧
      (∀ s ∈ store, s.participantId ≠ pid → s ∈ deleteScoreDoc store i) ∧
      (∀ E P, P ≠ pid →
        countPair (deleteScoreDoc store i) E P ≤ countPair store E P) := by
    intro i hex
    obtain ⟨r, hr, hid, hE, hPid⟩ := validForB_some eventId existingScores store pid i hV hex
    refine ⟨fun E P => le_trans (countPair_deleteScoreDoc_le store i E P) (hU E P),
      nodup_deleteScoreDoc store i hN, ?_, ?_, fun E P _ => countPair_deleteScoreDoc_le store i E P⟩
    · intro x hx
      exact Or.inl
        ((List.Sublist.map Score.id (List.filter_sublist store)).subset hx)
    · intro s hs hsp
      rw [mem_deleteScoreDoc]
      refine ⟨hs, fun hsi => ?_⟩
      have : s = r := List.inj_on_of_nodup_map hN hs hr (by rw [hsi, hid])
      exact hsp (this ▸ hPid)
  cases hsm : scoresMap pid with
  | none =>
    cases hex : existingScores pid with
    | none => simpa only [scoreEntryStep, hsm, hex] using hnoop
    | some i => simpa only [scoreEntryStep, hsm, hex] using hdel i hex
  | some v =>
    by_cases hv : v = ""
    · cases hex : existingScores pid with
      | none => simpa only [scoreEntryStep, hsm, hex, if_pos hv] using hnoop
      | some i => simpa only [scoreEntryStep, hsm, hex, if_pos hv] using hdel i hex
    · cases hex : existingScores pid with
      | some i =>
        simp only [scoreEntryStep, hsm, hex, if_neg hv]
        obtain ⟨r, hr, hid, hE, hPid⟩ := validForB_some eventId existingScores store pid i hV hex
        have hcnt := countPair_updateScoreDoc store i eventId pid (parseDec v) now hN r hr hid hE hPid
        refine ⟨fun E P => (hcnt E P) ▸ hU E P, ?_, ?_, ?_, fun E P _ => le_of_eq (hcnt E P)⟩
        · rw [scoreIds_updateScoreDoc]
          exact hN
        · intro x hx
          rw [scoreIds_updateScoreDoc] at hx
          exact Or.inl hx
        · intro s hs hsp
          refine mem_updateScoreDoc_of_ne store i eventId pid (parseDec v) now s hs fun hsi => ?_
          have : s = r := List.inj_on_of_nodup_map hN hs hr (by rw [hsi, hid])
          exact hsp (this ▸ hPid)
      | none =>
        simp only [scoreEntryStep, hsm, hex, if_neg hv]
        have hzero := countPair_eq_zero_of_validForB_none eventId existingScores store pid hV hex
        have hind : ∀ E P,
            countPair (addScoreDoc store fresh eventId pid (parseDec v) now) E P =
              countPair store E P +
                (if pairB E P ⟨fresh, eventId, pid, parseDec v, now⟩ then 1 else 0) :=
          countPair_addScoreDoc store fresh eventId pid (parseDec v) now
        refine ⟨?_, nodup_addScoreDoc store fresh eventId pid (parseDec v) now hN hF, ?_, ?_, ?_⟩
        · intro E P
          rw [hind E P]
          by_cases hp : pairB E P (⟨fresh, eventId, pid, parseDec v, now⟩ : Score) = true
          · rcases (pairB_eq_true_iff E P _).mp hp with ⟨h1, h2⟩
            simp only at h1 h2
            subst h1
            subst h2
            rw [hzero, if_pos hp]
          · rw [if_neg hp]
            simpa using hU E P
        · intro x hx
          rw [scoreIds_addScoreDoc, List.mem_append, List.mem_singleton] at hx
          exact hx
        · intro s hs _
          rw [mem_addScoreDoc]
          exact Or.inl hs
        · intro E P hP
          rw [hind E P]
          have hp : pairB E P (⟨fresh, eventId, pid, parseDec v, now⟩ : Score) ≠ true := by
            intro hp
            rcases (pairB_eq_true_iff E P _).mp hp with ⟨_, h2⟩
            simp only at h2
            exact hP h2.symm
          rw [if_neg hp]
          omega

theorem validForB_preserved (eventId : String) (existingScores : String → Option String)
    (store store' : List Score) (pid q : String) (hq : q ≠ pid)
    (hV : validForB eventId existingScores store q = true)
    (hmem : ∀ s ∈ store, s.participantId ≠ pid → s ∈ store')
    (hle : ∀ E P, P ≠ pid → countPair store' E P ≤ countPair store E P) :
    validForB eventId existingScores store' q = true := by
  unfold validForB
  cases hex : existingScores q with
  | some j =>
    obtain ⟨s, hs, hid, hE, hPid⟩ := validForB_some eventId existingScores store q j hV hex
    rw [List.any_eq_true]
    refine ⟨s, hmem s hs (by rw [hPid]; exact hq), ?_⟩
    simp [hid, hE, hPid]
  | none =>
    have h0 : countPair store eventId q = 0 := by
      rw [countPair, List.countP_eq_zero]
      intro s hs hp
      exact validForB_none eventId existingScores store q hV hex s hs
        ((pairB_eq_true_iff eventId q s).mp hp)
    have h0' : countPair store' eventId q = 0 :=
      Nat.le_zero.mp (h0 ▸ hle eventId q hq)
    rw [List.all_eq_true]
    intro s hs
    rw [countPair, List.countP_eq_zero] at h0'
    have := h0' s hs
    rw [Bool.not_eq_true']
    rw [← Bool.not_eq_true]
    intro hp
    exact this (by simpa [pairB] using hp)

theorem handleSubmitScores_countPair (eventId : String) (now : Nat)
    (scoresMap existingScores : String → Option String) :
    ∀ (ps : List Participant) (fs : List String) (store : List Score),
      (∀ E P, countPair store E P ≤ 1) → (scoreIds store).Nodup →
      (∀ p ∈ ps, validForB eventId existingScores store p.id = true) →
      (∀ f ∈ fs, f ∉ scoreIds store) → fs.Nodup →
      (ps.map Participant.id).Nodup →
      ∀ E P,
        countPair (handleSubmitScores eventId now scoresMap existingScores ps fs store) E P ≤ 1 := by
  intro ps
  induction ps with
  | nil =>
    intro fs store hU _ _ _ _ _ E P
    rw [handleSubmitScores]
    exact hU E P
  | cons p ps ih =>
    intro fs store hU hN hV hF hfs hpids E P
    cases fs with
    | nil =>
      rw [handleSubmitScores]
      exact hU E P
    | cons f fs' =>
      rw [handleSubmitScores]
      rw [List.map_cons, List.nodup_cons] at hpids
      rw [List.nodup_cons] at hfs
      obtain ⟨hU', hN', hids, hkeep, hle⟩ :=
        scoreEntryStep_facts eventId now scoresMap existingScores f store p.id hU hN
          (hV p (List.mem_cons_self p ps)) (hF f (List.mem_cons_self f fs'))
      have hvalid : ∀ q ∈ ps,
          validForB eventId existingScores
            (scoreEntryStep eventId now scoresMap existingScores f store p.id) q.id = true := by
        intro q hq
        have hqid : q.id ≠ p.id := by
          intro h
          exact hpids.1 (h ▸ List.mem_map_of_mem Participant.id hq)
        exact validForB_preserved eventId existingScores store _ p.id q.id hqid
          (hV q (List.mem_cons_of_mem p hq)) hkeep hle
      have hfresh : ∀ g ∈ fs',
          g ∉ scoreIds (scoreEntryStep eventId now scoresMap existingScores f store p.id) := by
        intro g hg hgid
        rcases hids g hgid with hin | hgf
        · exact hF g (List.mem_cons_of_mem f hg) hin
        · exact hfs.1 (hgf ▸ hg)
      exact ih fs' _ hU' hN' hvalid hfresh hfs.2 hpids.2 E P

theorem handleSaveScore_countPair (selectedEvent selectedParticipant : String)
    (elapsedTime now : Nat) (fresh : String) (store : List Score)
    (hU : ∀ E P, countPair store E P ≤ 1) (hN : (scoreIds store).Nodup) :
    ∀ E P,
      countPair (handleSaveScore selectedEvent selectedParticipant elapsedTime now fresh store).1
        E P ≤ 1 := by
  intro E P
  unfold handleSaveScore
  by_cases h1 : selectedEvent = "" ∨ selectedParticipant = ""
  · rw [if_pos h1]
    exact hU E P
  · rw [if_neg h1]
    by_cases h2 : elapsedTime = 0
    · rw [if_pos h2]
      exact hU E P
    · rw [if_neg h2]
      cases hm : store.filter (pairB selectedEvent selectedParticipant) with
      | nil =>
        simp only
        rw [countPair_addScoreDoc]
        by_cases hp : pairB E P
            (⟨fresh, selectedEvent, selectedParticipant, (elapsedTime : ℚ) / 1000, now⟩ :
              Score) = true
        · rcases (pairB_eq_true_iff E P _).mp hp with ⟨hE, hP⟩
          simp only at hE hP
          subst hE
          subst hP
          have h0 : countPair store selectedEvent selectedParticipant = 0 := by
            rw [countPair, List.countP_eq_length_filter, hm]
            rfl
          rw [h0, if_pos hp]
        · rw [if_neg hp]
          simpa using hU E P
      | cons m rest =>
        simp only
        have hmm : m ∈ store.filter (pairB selectedEvent selectedParticipant) := by
          rw [hm]
          exact List.mem_cons_self m rest
        rw [List.mem_filter] at hmm
        rcases (pairB_eq_true_iff selectedEvent selectedParticipant m).mp hmm.2 with ⟨hE, hP⟩
        rw [countPair_updateScoreDoc store m.id selectedEvent selectedParticipant
          ((elapsedTime : ℚ) / 1000) now hN m hmm.1 rfl hE hP]
        exact hU E P

theorem two_le_countP {α : Type} (p : α → Bool) :
    ∀ (l : List α) (s r : α), s ∈ l → r ∈ l → s ≠ r → p s = true → p r = true →
      2 ≤ l.countP p := by
  intro l
  induction l with
  | nil =>
    intro s r hs
    cases hs
  | cons a l ih =>
    intro s r hs hr hne hps hpr
    rw [List.countP_cons]
    rcases List.mem_cons.mp hs with rfl | hs'
    · have hr' : r ∈ l := by
        rcases List.mem_cons.mp hr with h | h
        · exact absurd h.symm hne
        · exact h
      have : 0 < l.countP p := List.countP_pos_iff.mpr ⟨r, hr', hpr⟩
      rw [if_pos hps]
      omega
    · rcases List.mem_cons.mp hr with rfl | hr'
      · have : 0 < l.countP p := List.countP_pos_iff.mpr ⟨s, hs', hps⟩
        rw [if_pos hpr]
        omega
      · have := ih s r hs' hr' hne hps hpr
        by_cases h : p a = true
        · rw [if_pos h]
          omega
        · rw [if_neg h]
          omega

theorem countPair_deleteScoreDoc_zero (store : List Score) (i eventId pid : String)
    (hU : ∀ E P, countPair store E P ≤ 1) (r : Score) (hr : r ∈ store) (hid : r.id = i)
    (hE : r.eventId = eventId) (hP : r.participantId = pid) :
    countPair (deleteScoreDoc store i) eventId pid = 0 := by
  rw [countPair, deleteScoreDoc, List.countP_eq_zero]
  intro s hs hp
  rw [List.mem_filter] at hs
  rcases hs with ⟨hsstore, hsid⟩
  have hsne : s ≠ r := by
    intro h
    subst h
    simp [hid] at hsid
  have hpr : pairB eventId pid r = true := (pairB_eq_true_iff eventId pid r).mpr ⟨hE, hP⟩
  have h2 := two_le_countP (pairB eventId pid) store s r hsstore hr hsne hp hpr
  have := hU eventId pid
  rw [countPair] at this
  omega

/-- C1: every write of the system's own score-save operations (the
ScoreEntry submit loop and the stopwatch save) either updates the pair's
existing score record or creates one only when none exists, so any store
satisfying the at-most-one-score-per-pair invariant still satisfies it at
the snapshot after the write: every pair has at most one live record.  The
hypotheses say the subscription-filled maps and the fresh-id supply are in
step with the store being written. -/
theorem C1_at_most_one_score_per_pair (eventId : String) (now : Nat)
    (scoresMap existingScores : String → Option String) (ps : List Participant)
    (fs : List String) (store : List Score) (selectedEvent selectedParticipant : String)
    (elapsedTime nowSW : Nat) (freshSW : String) (E P : String)
    (hU : uniquePairsB store = true) (hN : (scoreIds store).Nodup)
    (hV : ∀ p ∈ ps, validForB eventId existingScores store p.id = true)
    (hF : ∀ f ∈ fs, f ∉ scoreIds store) (hfs : fs.Nodup)
    (hpids : (ps.map Participant.id).Nodup) :
    countPair (handleSubmitScores eventId now scoresMap existingScores ps fs store) E P ≤ 1 ∧
    countPair
      (handleSaveScore selectedEvent selectedParticipant elapsedTime nowSW freshSW store).1
      E P ≤ 1 :=
  ⟨handleSubmitScores_countPair eventId now scoresMap existingScores ps fs store
      ((uniquePairsB_iff store).mp hU) hN hV hF hfs hpids E P,
    handleSaveScore_countPair selectedEvent selectedParticipant elapsedTime nowSW freshSW store
      ((uniquePairsB_iff store).mp hU) hN E P⟩

/-- Witness for C1 at a concrete store, participant list and fresh-id
supply: the pair ("E1", "P1") keeps at most one record after both writes. -/
theorem C1_at_most_one_score_per_pair_holds :
    countPair
      (handleSubmitScores "E1" 1 (fun p => if p = "P1" then some "7" else none)
        (fun p => if p = "P1" then some "s1" else none)
        [⟨"P1", "Alice", "Red"⟩, ⟨"P2", "Bob", "Blue"⟩] ["n1", "n2"]
        [⟨"s1", "E1", "P1", 10, 0⟩]) "E1" "P1" ≤ 1 ∧
    countPair
      (handleSaveScore "E1" "P2" 500 2 "n3" [⟨"s1", "E1", "P1", 10, 0⟩]).1 "E1" "P1" ≤ 1 :=
  C1_at_most_one_score_per_pair "E1" 1 (fun p => if p = "P1" then some "7" else none)
    (fun p => if p = "P1" then some "s1" else none)
    [⟨"P1", "Alice", "Red"⟩, ⟨"P2", "Bob", "Blue"⟩] ["n1", "n2"]
    [⟨"s1", "E1", "P1", 10, 0⟩] "E1" "P2" 500 2 "n3" "E1" "P1"
    (by decide) (by decide) (by decide) (by decide) (by decide) (by decide)

/-- C2: the score-save cases for one (eventId, pid) pair, as handleSubmit
executes them.  A non-empty numeric candidate with no existing record
creates exactly one new record carrying the parsed value; with an existing
record it updates that same record (same id, no id added or removed) to the
new value and timestamp; an empty or absent candidate deletes the existing
record when there is one and does nothing otherwise. -/
theorem C2_upsert_cases (eventId : String) (now : Nat)
    (scoresMap existingScores : String → Option String) (fresh : String)
    (store : List Score) (pid v : String)
    (hU : uniquePairsB store = true) (hN : (scoreIds store).Nodup)
    (hV : validForB eventId existingScores store pid = true) :
    (scoresMap pid = some v → v ≠ "" → existingScores pid = none →
      countPair (scoreEntryStep eventId now scoresMap existingScores fresh store pid)
        eventId pid = 1 ∧
      (⟨fresh, eventId, pid, parseDec v, now⟩ : Score) ∈
        scoreEntryStep eventId now scoresMap existingScores fresh store pid ∧
      (scoreEntryStep eventId now scoresMap existingScores fresh store pid).length =
        store.length + 1 ∧
      ∀ s ∈ store, s ∈ scoreEntryStep eventId now scoresMap existingScores fresh store pid) ∧
    (scoresMap pid = some v → v ≠ "" → ∀ i, existingScores pid = some i →
      (scoreEntryStep eventId now scoresMap existingScores fresh store pid).length =
        store.length ∧
      scoreIds (scoreEntryStep eventId now scoresMap existingScores fresh store pid) =
        scoreIds store ∧
      (⟨i, eventId, pid, parseDec v, now⟩ : Score) ∈
        scoreEntryStep eventId now scoresMap existingScores fresh store pid ∧
      ∀ s ∈ store, s.id ≠ i →
        s ∈ scoreEntryStep eventId now scoresMap existingScores fresh store pid) ∧
    ((scoresMap pid = none ∨ scoresMap pid = some "") → ∀ i, existingScores pid = some i →
      countPair (scoreEntryStep eventId now scoresMap existingScores fresh store pid)
        eventId pid = 0 ∧
      (scoreEntryStep eventId now scoresMap existingScores fresh store pid).length + 1 =
        store.length ∧
      ∀ s ∈ store, s.id ≠ i →
        s ∈ scoreEntryStep eventId now scoresMap existingScores fresh store pid) ∧
    ((scoresMap pid = none ∨ scoresMap pid = some "") → existingScores pid = none →
      scoreEntryStep eventId now scoresMap existingScores fresh store pid = store) := by
  refine ⟨?_, ?_, ?_, ?_⟩
  · intro hsm hv hex
    simp only [scoreEntryStep, hsm, hex, if_neg hv]
    have hzero := countPair_eq_zero_of_validForB_none eventId existingScores store pid hV hex
    refine ⟨?_, ?_, length_addScoreDoc store fresh eventId pid (parseDec v) now, ?_⟩
    · rw [countPair_addScoreDoc, hzero]
      have hp : pairB eventId pid
          (⟨fresh, eventId, pid, parseDec v, now⟩ : Score) = true := by
        simp [pairB]
      rw [if_pos hp]
    · rw [mem_addScoreDoc]
      exact Or.inr rfl
    · intro s hs
      rw [mem_addScoreDoc]
      exact Or.inl hs
  · intro hsm hv i hex
    simp only [scoreEntryStep, hsm, hex, if_neg hv]
    obtain ⟨r, hr, hid, hE, hPid⟩ := validForB_some eventId existingScores store pid i hV hex
    exact ⟨length_updateScoreDoc store i eventId pid (parseDec v) now,
      scoreIds_updateScoreDoc store i eventId pid (parseDec v) now,
      updated_mem_updateScoreDoc store i eventId pid (parseDec v) now r hr hid,
      fun s hs hsi => mem_updateScoreDoc_of_ne store i eventId pid (parseDec v) now s hs hsi⟩
  · intro hsm i hex
    obtain ⟨r, hr, hid, hE, hPid⟩ := validForB_some eventId existingScores store pid i hV hex
    have hgoal :
        countPair (deleteScoreDoc store i) eventId pid = 0 ∧
        (deleteScoreDoc store i).length + 1 = store.length ∧
        ∀ s ∈ store, s.id ≠ i → s ∈ deleteScoreDoc store i := by
      refine ⟨countPair_deleteScoreDoc_zero store i eventId pid
          ((uniquePairsB_iff store).mp hU) r hr hid hE hPid,
        length_deleteScoreDoc store i hN r hr hid, ?_⟩
      intro s hs hsi
      rw [mem_deleteScoreDoc]
      exact ⟨hs, hsi⟩
    rcases hsm with hsm | hsm
    · simpa only [scoreEntryStep, hsm, hex] using hgoal
    · simp only [scoreEntryStep, hsm, hex]
      simpa using hgoal
  · intro hsm hex
    rcases hsm with hsm | hsm
    · simp only [scoreEntryStep, hsm, hex]
    · simp [scoreEntryStep, hsm, hex]

/-- Witness for C2: the four branch descriptions instantiated at a concrete
store holding one score for ("E1", "P1"), edit state "7" for P1 and a
subscription map pointing at the stored record. -/
theorem C2_upsert_cases_holds :
    ((fun p => if p = "P1" then some "7" else none) "P1" = some "7" → "7" ≠ "" →
      (fun p => if p = "P1" then some "s1" else none) "P1" = none →
      countPair (scoreEntryStep "E1" 1 (fun p => if p = "P1" then some "7" else none)
        (fun p => if p = "P1" then some "s1" else none) "n1"
        [⟨"s1", "E1", "P1", 10, 0⟩] "P1") "E1" "P1" = 1 ∧
      (⟨"n1", "E1", "P1", parseDec "7", 1⟩ : Score) ∈
        scoreEntryStep "E1" 1 (fun p => if p = "P1" then some "7" else none)
          (fun p => if p = "P1" then some "s1" else none) "n1"
          [⟨"s1", "E1", "P1", 10, 0⟩] "P1" ∧
      (scoreEntryStep "E1" 1 (fun p => if p = "P1" then some "7" else none)
        (fun p => if p = "P1" then some "s1" else none) "n1"
        [⟨"s1", "E1", "P1", 10, 0⟩] "P1").length =
        [(⟨"s1", "E1", "P1", 10, 0⟩ : Score)].length + 1 ∧
      ∀ s ∈ [(⟨"s1", "E1", "P1", 10, 0⟩ : Score)],
        s ∈ scoreEntryStep "E1" 1 (fun p => if p = "P1" then some "7" else none)
          (fun p => if p = "P1" then some "s1" else none) "n1"
          [⟨"s1", "E1", "P1", 10, 0⟩] "P1") ∧
    ((fun p => if p = "P1" then some "7" else none) "P1" = some "7" → "7" ≠ "" →
      ∀ i, (fun p => if p = "P1" then some "s1" else none) "P1" = some i →
      (scoreEntryStep "E1" 1 (fun p => if p = "P1" then some "7" else none)
        (fun p => if p = "P1" then some "s1" else none) "n1"
        [⟨"s1", "E1", "P1", 10, 0⟩] "P1").length =
        [(⟨"s1", "E1", "P1", 10, 0⟩ : Score)].length ∧
      scoreIds (scoreEntryStep "E1" 1 (fun p => if p = "P1" then some "7" else none)
        (fun p => if p = "P1" then some "s1" else none) "n1"
        [⟨"s1", "E1", "P1", 10, 0⟩] "P1") =
        scoreIds [⟨"s1", "E1", "P1", 10, 0⟩] ∧
      (⟨i, "E1", "P1", parseDec "7", 1⟩ : Score) ∈
        scoreEntryStep "E1" 1 (fun p => if p = "P1" then some "7" else none)
          (fun p => if p = "P1" then some "s1" else none) "n1"
          [⟨"s1", "E1", "P1", 10, 0⟩] "P1" ∧
      ∀ s ∈ [(⟨"s1", "E1", "P1", 10, 0⟩ : Score)], s.id ≠ i →
        s ∈ scoreEntryStep "E1" 1 (fun p => if p = "P1" then some "7" else none)
          (fun p => if p = "P1" then some "s1" else none) "n1"
          [⟨"s1", "E1", "P1", 10, 0⟩] "P1") ∧
    (((fun p => if p = "P1" then some "7" else none) "P1" = none ∨
        (fun p => if p = "P1" then some "7" else none) "P1" = some "") →
      ∀ i, (fun p => if p = "P1" then some "s1" else none) "P1" = some i →
      countPair (scoreEntryStep "E1" 1 (fun p => if p = "P1" then some "7" else none)
        (fun p => if p = "P1" then some "s1" else none) "n1"
        [⟨"s1", "E1", "P1", 10, 0⟩] "P1") "E1" "P1" = 0 ∧
      (scoreEntryStep "E1" 1 (fun p => if p = "P1" then some "7" else none)
        (fun p => if p = "P1" then some "s1" else none) "n1"
        [⟨"s1", "E1", "P1", 10, 0⟩] "P1").length + 1 =
        [(⟨"s1", "E1", "P1", 10, 0⟩ : Score)].length ∧
      ∀ s ∈ [(⟨"s1", "E1", "P1", 10, 0⟩ : Score)], s.id ≠ i →
        s ∈ scoreEntryStep "E1" 1 (fun p => if p = "P1" then some "7" else none)
          (fun p => if p = "P1" then some "s1" else none) "n1"
          [⟨"s1", "E1", "P1", 10, 0⟩] "P1") ∧
    (((fun p => if p = "P1" then some "7" else none) "P1" = none ∨
        (fun p => if p = "P1" then some "7" else none) "P1" = some "") →
      (fun p => if p = "P1" then some "s1" else none) "P1" = none →
      scoreEntryStep "E1" 1 (fun p => if p = "P1" then some "7" else none)
        (fun p => if p = "P1" then some "s1" else none) "n1"
        [⟨"s1", "E1", "P1", 10, 0⟩] "P1" = [⟨"s1", "E1", "P1", 10, 0⟩]) :=
  C2_upsert_cases "E1" 1 (fun p => if p = "P1" then some "7" else none)
    (fun p => if p = "P1" then some "s1" else none) "n1"
    [⟨"s1", "E1", "P1", 10, 0⟩] "P1" "7"
    (by decide) (by decide) (by decide)

theorem mem_foldl_deleteScoreDoc :
    ∀ (ids : List String) (st : List Score) (s : Score),
      s ∈ ids.foldl (fun acc i => deleteScoreDoc acc i) st → s ∈ st ∧ s.id ∉ ids := by
  intro ids
  induction ids with
  | nil =>
    intro st s hs
    exact ⟨hs, by simp⟩
  | cons i rest ih =>
    intro st s hs
    rw [List.foldl_cons] at hs
    obtain ⟨hs', hnin⟩ := ih _ s hs
    rw [mem_deleteScoreDoc] at hs'
    refine ⟨hs'.1, ?_⟩
    rw [List.mem_cons]
    rintro (h | h)
    · exact hs'.2 h
    · exact hnin h

/-- C3: after the cascade delete of an event completes, no score record of
that event remains (the event record itself is gone too); symmetrically for
a participant and its scores. -/
theorem C3_cascade_delete_completeness (eventId participantId : String)
    (events : List Event) (participants : List Participant) (scores : List Score) :
    (∀ s ∈ (handleDeleteEvent eventId events scores).2, s.eventId ≠ eventId) ∧
    (∀ ev ∈ (handleDeleteEvent eventId events scores).1, ev.id ≠ eventId) ∧
    (∀ s ∈ (handleDeleteParticipant participantId participants scores).2,
      s.participantId ≠ participantId) ∧
    (∀ p ∈ (handleDeleteParticipant participantId participants scores).1,
      p.id ≠ participantId) := by
  refine ⟨?_, ?_, ?_, ?_⟩
  · intro s hs hcontra
    obtain ⟨hmem, hnin⟩ := mem_foldl_deleteScoreDoc _ _ s hs
    apply hnin
    apply List.mem_map_of_mem Score.id
    rw [List.mem_filter]
    exact ⟨hmem, by simp [hcontra]⟩
  · intro ev hev
    rw [handleDeleteEvent] at hev
    simp only [List.mem_filter] at hev
    simpa using hev.2
  · intro s hs hcontra
    obtain ⟨hmem, hnin⟩ := mem_foldl_deleteScoreDoc _ _ s hs
    apply hnin
    apply List.mem_map_of_mem Score.id
    rw [List.mem_filter]
    exact ⟨hmem, by simp [hcontra]⟩
  · intro p hp
    rw [handleDeleteParticipant] at hp
    simp only [List.mem_filter] at hp
    simpa using hp.2

/-- C5: the per-event view is the event's score list sorted by score value,
highest first, as a stable sort: it is a permutation of the event-filtered
query result, pairwise descending, and for every score value the records
carrying that value keep their original relative order; on the claim's
example (A:10, B:20, C:20, input order A-B-C) it lists B, C, A. -/
theorem C5_event_ranking_correct (eventId : String) (store : List Score) (v : ℚ) :
    (eventScoresView eventId store).Perm (store.filter (fun s => s.eventId == eventId)) ∧
    (eventScoresView eventId store).Pairwise (fun a b => b.score ≤ a.score) ∧
    (eventScoresView eventId store).filter (fun s => s.score == v) =
      (store.filter (fun s => s.eventId == eventId)).filter (fun s => s.score == v) ∧
    eventScoresView "E1"
      [⟨"A", "E1", "PA", 10, 0⟩, ⟨"B", "E1", "PB", 20, 0⟩, ⟨"C", "E1", "PC", 20, 0⟩] =
    [⟨"B", "E1", "PB", 20, 0⟩, ⟨"C", "E1", "PC", 20, 0⟩, ⟨"A", "E1", "PA", 10, 0⟩] := by
  refine ⟨perm_sortDescBy Score.score _, pairwise_sortDescBy Score.score _,
    filter_sortDescBy Score.score _ v, ?_⟩
  norm_num [eventScoresView, sortDescBy, insertDescBy]

theorem lookupAssoc_setAssoc (m : List (String × String)) (pid v : String) :
    lookupAssoc (setAssoc m pid v) pid = some v := by
  induction m with
  | nil => simp [setAssoc, lookupAssoc]
  | cons kv rest ih =>
    obtain ⟨k, x⟩ := kv
    rw [setAssoc]
    by_cases h : k = pid
    · rw [if_pos h, lookupAssoc, if_pos h]
    · rw [if_neg h, lookupAssoc, if_neg h]
      exact ih

/-- C6: the edit-boundary filter stores a candidate exactly when it is the
empty string or matches the unsigned decimal pattern `\d*\.?\d*`; "12.5",
"0" and "" pass, "abc" and "1.2.3" are rejected and the edit state (hence
the store) is left unchanged. -/
theorem C6_numeric_input_filter (scores : List (String × String)) (pid value : String) :
    (decPatB "12.5" = true ∧ decPatB "0" = true ∧ decPatB "" = true ∧
      decPatB "abc" = false ∧ decPatB "1.2.3" = false) ∧
    ((value = "" ∨ decPatB value = true) →
      lookupAssoc (handleScoreChange scores pid value) pid = some value) ∧
    (¬(value = "" ∨ decPatB value = true) → handleScoreChange scores pid value = scores) := by
  refine ⟨by decide, ?_, ?_⟩
  · intro h
    rcases h with h | h
    · simp only [handleScoreChange, h]
      simp [lookupAssoc_setAssoc]
    · simp only [handleScoreChange, h]
      simp [lookupAssoc_setAssoc]
  · intro h
    rw [not_or] at h
    obtain ⟨h1, h2⟩ := h
    rw [Bool.not_eq_true] at h2
    simp [handleScoreChange, h1, h2]

/-- C7: lap while the timer is not running changes neither the elapsed time
nor the lap list; lap while running appends the current elapsed value at the
end of the lap list (the earlier entries are the old list, unchanged); reset
from any state zeroes the elapsed time and empties the lap list. -/
theorem C7_lap_and_reset (s : SWState) :
    (s.isRunning = false →
      (lapStopwatch s).elapsedTime = s.elapsedTime ∧ (lapStopwatch s).laps = s.laps) ∧
    (s.isRunning = true →
      (lapStopwatch s).laps = s.laps ++ [s.elapsedTime] ∧
      (lapStopwatch s).elapsedTime = s.elapsedTime) ∧
    (resetStopwatch s).elapsedTime = 0 ∧ (resetStopwatch s).laps = [] := by
  refine ⟨fun h => ?_, fun h => ?_, rfl, rfl⟩
  · simp [lapStopwatch, h]
  · simp [lapStopwatch, h]

/-- C9: in every observable state of the timer subsystem (every state the
sampling effect has settled after an action), the 10 ms display interval is
scheduled exactly while the timer is running; in particular the interval
never survives a transition out of the running state. -/
theorem C9_sampling_only_while_running (t : TimerSys) (h : ReachableTimer t) :
    t.intervalActive = t.isRunning := by
  induction h with
  | init => rfl
  | step ht a ih => cases a <;> rfl

/-- Witness for C9 on the concrete run start-then-stop from the initial
state: the interval flag agrees with the running flag. -/
theorem C9_sampling_only_while_running_holds :
    (applyTimerAction TimerAction.stop
      (applyTimerAction TimerAction.start ⟨false, false⟩)).intervalActive =
    (applyTimerAction TimerAction.stop
      (applyTimerAction TimerAction.start ⟨false, false⟩)).isRunning :=
  C9_sampling_only_while_running _
    (ReachableTimer.step (ReachableTimer.step ReachableTimer.init TimerAction.start)
      TimerAction.stop)

/-- C10: when no event or no participant is selected, or the elapsed time is
zero, the stopwatch save performs no store write (the score collection is
returned unchanged, so a zero time is never recorded) and only sets the
explanatory message of the failed precondition. -/
theorem C10_save_preconditions (selectedEvent selectedParticipant : String)
    (elapsedTime now : Nat) (fresh : String) (store : List Score)
    (h : selectedEvent = "" ∨ selectedParticipant = "" ∨ elapsedTime = 0) :
    (handleSaveScore selectedEvent selectedParticipant elapsedTime now fresh store).1 = store ∧
    ((selectedEvent = "" ∨ selectedParticipant = "") →
      (handleSaveScore selectedEvent selectedParticipant elapsedTime now fresh store).2 =
        "Please select both an event and a participant.") ∧
    (selectedEvent ≠ "" → selectedParticipant ≠ "" → elapsedTime = 0 →
      (handleSaveScore selectedEvent selectedParticipant elapsedTime now fresh store).2 =
        "Stopwatch time is 0. Please run the stopwatch first.") := by
  unfold handleSaveScore
  by_cases h1 : selectedEvent = "" ∨ selectedParticipant = ""
  · rw [if_pos h1]
    refine ⟨rfl, fun _ => rfl, fun hE hP => ?_⟩
    rcases h1 with h1 | h1
    · exact absurd h1 hE
    · exact absurd h1 hP
  · have h0 : elapsedTime = 0 := by
      rcases h with h | h | h
      · exact absurd (Or.inl h) h1
      · exact absurd (Or.inr h) h1
      · exact h
    rw [if_neg h1, if_pos h0]
    exact ⟨rfl, fun hc => absurd hc h1, fun _ _ _ => rfl⟩

/-- Witness for C10: saving with no event selected leaves the concrete store
unchanged and sets the selection message; with selections made and elapsed
time 0 the zero-time message would be set. -/
theorem C10_save_preconditions_holds :
    (handleSaveScore "" "P1" 500 1 "n1" [⟨"s1", "E1", "P1", 10, 0⟩]).1 =
      [⟨"s1", "E1", "P1", 10, 0⟩] ∧
    (("" : String) = "" ∨ ("P1" : String) = "" →
      (handleSaveScore "" "P1" 500 1 "n1" [⟨"s1", "E1", "P1", 10, 0⟩]).2 =
        "Please select both an event and a participant.") ∧
    (("" : String) ≠ "" → ("P1" : String) ≠ "" → 500 = 0 →
      (handleSaveScore "" "P1" 500 1 "n1" [⟨"s1", "E1", "P1", 10, 0⟩]).2 =
        "Stopwatch time is 0. Please run the stopwatch first.") :=
  C10_save_preconditions "" "P1" 500 1 "n1" [⟨"s1", "E1", "P1", 10, 0⟩] (Or.inl rfl)

theorem handleSaveScore_writes (selectedEvent selectedParticipant : String)
    (elapsedTime now : Nat) (fresh : String) (store : List Score)
    (hE : selectedEvent ≠ "") (hP : selectedParticipant ≠ "") (h0 : elapsedTime ≠ 0) :
    ∃ r ∈ (handleSaveScore selectedEvent selectedParticipant elapsedTime now fresh store).1,
      r.eventId = selectedEvent ∧ r.participantId = selectedParticipant ∧
      r.score = (elapsedTime : ℚ) / 1000 ∧ r.timestamp = now := by
  unfold handleSaveScore
  rw [if_neg (by tauto : ¬(selectedEvent = "" ∨ selectedParticipant = "")), if_neg h0]
  cases hm : store.filter (pairB selectedEvent selectedParticipant) with
  | nil =>
    refine ⟨⟨fresh, selectedEvent, selectedParticipant, (elapsedTime : ℚ) / 1000, now⟩,
      ?_, rfl, rfl, rfl, rfl⟩
    simp only
    rw [mem_addScoreDoc]
    exact Or.inr rfl
  | cons m rest =>
    have hmm : m ∈ store.filter (pairB selectedEvent selectedParticipant) := by
      rw [hm]
      exact List.mem_cons_self m rest
    rw [List.mem_filter] at hmm
    exact ⟨⟨m.id, selectedEvent, selectedParticipant, (elapsedTime : ℚ) / 1000, now⟩,
      updated_mem_updateScoreDoc store m.id selectedEvent selectedParticipant
        ((elapsedTime : ℚ) / 1000) now m hmm.1 rfl, rfl, rfl, rfl, rfl⟩

theorem handleSaveScore_update (selectedEvent selectedParticipant : String)
    (elapsedTime now : Nat) (fresh : String) (store : List Score)
    (hE : selectedEvent ≠ "") (hP : selectedParticipant ≠ "") (h0 : elapsedTime ≠ 0)
    (r0 : Score) (hr0 : r0 ∈ store) (hE0 : r0.eventId = selectedEvent)
    (hP0 : r0.participantId = selectedParticipant) :
    (handleSaveScore selectedEvent selectedParticipant elapsedTime now fresh store).1.length =
      store.length ∧
    scoreIds (handleSaveScore selectedEvent selectedParticipant elapsedTime now fresh store).1 =
      scoreIds store ∧
    ∃ i, (∃ r ∈ store, r.id = i ∧ r.eventId = selectedEvent ∧
        r.participantId = selectedParticipant) ∧
      (⟨i, selectedEvent, selectedParticipant, (elapsedTime : ℚ) / 1000, now⟩ : Score) ∈
        (handleSaveScore selectedEvent selectedParticipant elapsedTime now fresh store).1 := by
  unfold handleSaveScore
  rw [if_neg (by tauto : ¬(selectedEvent = "" ∨ selectedParticipant = "")), if_neg h0]
  cases hm : store.filter (pairB selectedEvent selectedParticipant) with
  | nil =>
    exfalso
    have : r0 ∈ store.filter (pairB selectedEvent selectedParticipant) := by
      rw [List.mem_filter]
      exact ⟨hr0, (pairB_eq_true_iff _ _ r0).mpr ⟨hE0, hP0⟩⟩
    rw [hm] at this
    cases this
  | cons m rest =>
    have hmm : m ∈ store.filter (pairB selectedEvent selectedParticipant) := by
      rw [hm]
      exact List.mem_cons_self m rest
    rw [List.mem_filter] at hmm
    rcases (pairB_eq_true_iff _ _ m).mp hmm.2 with ⟨hme, hmp⟩
    exact ⟨length_updateScoreDoc store m.id selectedEvent selectedParticipant
        ((elapsedTime : ℚ) / 1000) now,
      scoreIds_updateScoreDoc store m.id selectedEvent selectedParticipant
        ((elapsedTime : ℚ) / 1000) now,
      m.id, ⟨m, hmm.1, rfl, hme, hmp⟩,
      updated_mem_updateScoreDoc store m.id selectedEvent selectedParticipant
        ((elapsedTime : ℚ) / 1000) now m hmm.1 rfl⟩

/-- C8: the stopwatch save converts the elapsed milliseconds to seconds
(elapsed / 1000) and writes that value for the chosen pair after looking the
pair's existing record up; a second save for the same pair finds the record
the first save left and updates a record with that same id in place: the id
list and length are unchanged, and no second record appears. -/
theorem C8_stopwatch_save_upsert (selectedEvent selectedParticipant : String)
    (elapsed1 elapsed2 now1 now2 : Nat) (fresh1 fresh2 : String) (store : List Score)
    (hE : selectedEvent ≠ "") (hP : selectedParticipant ≠ "")
    (h1 : elapsed1 ≠ 0) (h2 : elapsed2 ≠ 0) :
    (∃ r ∈ (handleSaveScore selectedEvent selectedParticipant elapsed1 now1 fresh1 store).1,
      r.eventId = selectedEvent ∧ r.participantId = selectedParticipant ∧
      r.score = (elapsed1 : ℚ) / 1000 ∧ r.timestamp = now1) ∧
    (handleSaveScore selectedEvent selectedParticipant elapsed2 now2 fresh2
      (handleSaveScore selectedEvent selectedParticipant elapsed1 now1 fresh1
        store).1).1.length =
      (handleSaveScore selectedEvent selectedParticipant elapsed1 now1 fresh1
        store).1.length ∧
    scoreIds (handleSaveScore selectedEvent selectedParticipant elapsed2 now2 fresh2
      (handleSaveScore selectedEvent selectedParticipant elapsed1 now1 fresh1 store).1).1 =
      scoreIds (handleSaveScore selectedEvent selectedParticipant elapsed1 now1 fresh1
        store).1 ∧
    ∃ i, (∃ r ∈ (handleSaveScore selectedEvent selectedParticipant elapsed1 now1 fresh1
          store).1,
        r.id = i ∧ r.eventId = selectedEvent ∧ r.participantId = selectedParticipant) ∧
      (⟨i, selectedEvent, selectedParticipant, (elapsed2 : ℚ) / 1000, now2⟩ : Score) ∈
        (handleSaveScore selectedEvent selectedParticipant elapsed2 now2 fresh2
          (handleSaveScore selectedEvent selectedParticipant elapsed1 now1 fresh1
            store).1).1 := by
  obtain ⟨r1, hr1, hre, hrp, hrs, hrt⟩ :=
    handleSaveScore_writes selectedEvent selectedParticipant elapsed1 now1 fresh1 store
      hE hP h1
  obtain ⟨hlen, hids, hupd⟩ :=
    handleSaveScore_update selectedEvent selectedParticipant elapsed2 now2 fresh2
      (handleSaveScore selectedEvent selectedParticipant elapsed1 now1 fresh1 store).1
      hE hP h2 r1 hr1 hre hrp
  exact ⟨⟨r1, hr1, hre, hrp, hrs, hrt⟩, hlen, hids, hupd⟩

/-- Witness for C8 on an empty store: the first save creates the pair's
record with score 500/1000 seconds, the second save keeps the id list and
length and carries 700/1000 under the same id. -/
theorem C8_stopwatch_save_upsert_holds :
    (∃ r ∈ (handleSaveScore "E1" "P1" 500 1 "n1" []).1,
      r.eventId = "E1" ∧ r.participantId = "P1" ∧
      r.score = (500 : ℚ) / 1000 ∧ r.timestamp = 1) ∧
    (handleSaveScore "E1" "P1" 700 2 "n2"
      (handleSaveScore "E1" "P1" 500 1 "n1" []).1).1.length =
      (handleSaveScore "E1" "P1" 500 1 "n1" []).1.length ∧
    scoreIds (handleSaveScore "E1" "P1" 700 2 "n2"
      (handleSaveScore "E1" "P1" 500 1 "n1" []).1).1 =
      scoreIds (handleSaveScore "E1" "P1" 500 1 "n1" []).1 ∧
    ∃ i, (∃ r ∈ (handleSaveScore "E1" "P1" 500 1 "n1" []).1,
        r.id = i ∧ r.eventId = "E1" ∧ r.participantId = "P1") ∧
      (⟨i, "E1", "P1", (700 : ℚ) / 1000, 2⟩ : Score) ∈
        (handleSaveScore "E1" "P1" 700 2 "n2"
          (handleSaveScore "E1" "P1" 500 1 "n1" []).1).1 :=
  C8_stopwatch_save_upsert "E1" "P1" 500 700 1 2 "n1" "n2" []
    (by decide) (by decide) (by decide) (by decide)

/-- Lookup in the `participantScores` association list. -/
def lookupTot : List (String × ℚ) → String → Option ℚ
  | [], _ => none
  | (k, t) :: rest, pid => if k = pid then some t else lookupTot rest pid

/-- The keys of the `participantScores` association list, in insertion
order. -/
def keysOf (m : List (String × ℚ)) : List String :=
  m.map Prod.fst

theorem lookupTot_bump_self (m : List (String × ℚ)) (pid : String) (v : ℚ) :
    lookupTot (bumpTotal m pid v) pid = some ((lookupTot m pid).getD 0 + v) := by
  induction m with
  | nil => simp [bumpTotal, lookupTot]
  | cons kv rest ih =>
    obtain ⟨k, t⟩ := kv
    rw [bumpTotal]
    by_cases h : k = pid
    · rw [if_pos h, lookupTot, if_pos h, lookupTot, if_pos h]
      by_cases ht : t ≠ 0
      · rw [if_pos ht]
        simp
      · rw [if_neg ht]
        push_neg at ht
        simp [ht]
    · rw [if_neg h, lookupTot, if_neg h, lookupTot, if_neg h]
      exact ih

theorem lookupTot_bump_other (m : List (String × ℚ)) (pid q : String) (v : ℚ)
    (h : q ≠ pid) : lookupTot (bumpTotal m pid v) q = lookupTot m q := by
  induction m with
  | nil =>
    have hb : bumpTotal [] pid v = [(pid, v)] := rfl
    simp [hb, lookupTot, Ne.symm h]
  | cons kv rest ih =>
    obtain ⟨k, t⟩ := kv
    rw [bumpTotal]
    by_cases hk : k = pid
    · have hkq : ¬ k = q := fun hc => h ((hc ▸ hk : q = pid))
      rw [if_pos hk, lookupTot, if_neg hkq, lookupTot, if_neg hkq]
    · rw [if_neg hk, lookupTot, lookupTot]
      by_cases hq : k = q
      · rw [if_pos hq, if_pos hq]
      · rw [if_neg hq, if_neg hq]
        exact ih

theorem mem_keysOf_bump (m : List (String × ℚ)) (pid : String) (v : ℚ) (q : String) :
    q ∈ keysOf (bumpTotal m pid v) ↔ q ∈ keysOf m ∨ q = pid := by
  induction m with
  | nil => simp [bumpTotal, keysOf]
  | cons kv rest ih =>
    obtain ⟨k, t⟩ := kv
    rw [bumpTotal]
    by_cases hk : k = pid
    · rw [if_pos hk]
      simp only [keysOf, List.map_cons, List.mem_cons]
      constructor
      · rintro (h | h)
        · exact Or.inl (Or.inl h)
        · exact Or.inl (Or.inr h)
      · rintro ((h | h) | h)
        · exact Or.inl h
        · exact Or.inr h
        · exact Or.inl (h.trans hk.symm)
    · rw [if_neg hk]
      simp only [keysOf, List.map_cons, List.mem_cons] at *
      rw [ih]
      tauto

theorem keysOf_bump_nodup (m : List (String × ℚ)) (pid : String) (v : ℚ)
    (h : (keysOf m).Nodup) : (keysOf (bumpTotal m pid v)).Nodup := by
  induction m with
  | nil => simp [bumpTotal, keysOf]
  | cons kv rest ih =>
    obtain ⟨k, t⟩ := kv
    simp only [keysOf, List.map_cons, List.nodup_cons] at h
    rw [bumpTotal]
    by_cases hk : k = pid
    · rw [if_pos hk]
      simp only [keysOf, List.map_cons, List.nodup_cons]
      exact h
    · rw [if_neg hk]
      simp only [keysOf, List.map_cons, List.nodup_cons]
      refine ⟨?_, ih h.2⟩
      intro hc
      rcases (mem_keysOf_bump rest pid v k).mp hc with hc | hc
      · exact h.1 hc
      · exact hk hc

theorem lookupTot_eq_none_iff (m : List (String × ℚ)) (q : String) :
    lookupTot m q = none ↔ q ∉ keysOf m := by
  induction m with
  | nil => simp [lookupTot, keysOf]
  | cons kv rest ih =>
    obtain ⟨k, t⟩ := kv
    rw [lookupTot]
    simp only [keysOf, List.map_cons, List.mem_cons]
    by_cases hk : k = q
    · rw [if_pos hk]
      simp [hk]
    · rw [if_neg hk]
      rw [ih]
      constructor
      · intro h
        rintro (hc | hc)
        · exact hk hc.symm
        · exact h hc
      · intro h hc
        exact h (Or.inr hc)

theorem mem_lookupTot (m : List (String × ℚ)) (hnd : (keysOf m).Nodup) (k : String)
    (t : ℚ) (hmem : (k, t) ∈ m) : lookupTot m k = some t := by
  induction m with
  | nil => cases hmem
  | cons kv rest ih =>
    obtain ⟨k', t'⟩ := kv
    simp only [keysOf, List.map_cons, List.nodup_cons] at hnd
    rw [lookupTot]
    rcases List.mem_cons.mp hmem with heq | hmem'
    · obtain ⟨h1, h2⟩ := Prod.mk.injEq .. ▸ heq
      injection heq with h1 h2
      rw [if_pos h1.symm]
      rw [h2]
    · by_cases hk : k' = k
      · exfalso
        apply hnd.1
        rw [hk]
        exact List.mem_map_of_mem Prod.fst hmem'
      · rw [if_neg hk]
        exact ih hnd.2 hmem'

theorem lookupTot_foldl_bump :
    ∀ (scores : List Score) (m : List (String × ℚ)) (pid : String),
      lookupTot (scores.foldl (fun acc s => bumpTotal acc s.participantId s.score) m) pid =
        if pid ∈ keysOf m ∨ scores.any (fun x => x.participantId == pid) = true then
          some ((lookupTot m pid).getD 0 + sumScoresFor scores pid)
        else none := by
  intro scores
  induction scores with
  | nil =>
    intro m pid
    rw [List.foldl_nil, List.any_nil]
    by_cases h : pid ∈ keysOf m
    · rw [if_pos (Or.inl h)]
      cases hl : lookupTot m pid with
      | none => exact absurd h (fun hmem => (lookupTot_eq_none_iff m pid).mp hl hmem)
      | some t =>
        have hsum : sumScoresFor [] pid = 0 := rfl
        rw [hsum]
        simp
    · have hcond : ¬(pid ∈ keysOf m ∨ (false : Bool) = true) := by simp [h]
      rw [if_neg hcond]
      exact (lookupTot_eq_none_iff m pid).mpr h
  | cons s rest ih =>
    intro m pid
    rw [List.foldl_cons, ih (bumpTotal m s.participantId s.score) pid]
    by_cases hsp : s.participantId = pid
    · have hkey : pid ∈ keysOf (bumpTotal m s.participantId s.score) :=
        (mem_keysOf_bump m s.participantId s.score pid).mpr (Or.inr hsp.symm)
      rw [if_pos (Or.inl hkey)]
      have hany : (s :: rest).any (fun x => x.participantId == pid) = true := by
        rw [List.any_cons]
        simp [hsp]
      rw [if_pos (Or.inr hany)]
      have hsum : sumScoresFor (s :: rest) pid = s.score + sumScoresFor rest pid := by
        unfold sumScoresFor
        rw [List.filter_cons, if_pos (by simp [hsp]), List.map_cons, List.sum_cons]
      rw [hsp, lookupTot_bump_self, hsum]
      simp only [Option.getD_some]
      congr 1
      rw [add_assoc]
    · have hb := lookupTot_bump_other m s.participantId pid s.score
        (fun hc => hsp hc.symm)
      have hsum : sumScoresFor (s :: rest) pid = sumScoresFor rest pid := by
        unfold sumScoresFor
        rw [List.filter_cons, if_neg (by simp [hsp])]
      have hcond : (pid ∈ keysOf (bumpTotal m s.participantId s.score) ∨
          rest.any (fun x => x.participantId == pid) = true) ↔
          (pid ∈ keysOf m ∨ (s :: rest).any (fun x => x.participantId == pid) = true) := by
        rw [mem_keysOf_bump, List.any_cons]
        constructor
        · rintro ((h | h) | h)
          · exact Or.inl h
          · exact absurd h (fun hc => hsp hc.symm)
          · exact Or.inr (by simp [h])
        · rintro (h | h)
          · exact Or.inl (Or.inl h)
          · rw [Bool.or_eq_true] at h
            rcases h with h | h
            · exact absurd (by simpa using h) hsp
            · exact Or.inr h
      by_cases hc : pid ∈ keysOf m ∨ (s :: rest).any (fun x => x.participantId == pid) = true
      · rw [if_pos (hcond.mpr hc), if_pos hc, hb, hsum]
      · rw [if_neg (fun hx => hc (hcond.mp hx)), if_neg hc]

theorem keysOf_participantTotals_nodup (scores : List Score) :
    (keysOf (participantTotals scores)).Nodup := by
  have hgen : ∀ (l : List Score) (m : List (String × ℚ)), (keysOf m).Nodup →
      (keysOf (l.foldl (fun acc s => bumpTotal acc s.participantId s.score) m)).Nodup := by
    intro l
    induction l with
    | nil =>
      intro m h
      simpa using h
    | cons s rest ih =>
      intro m h
      rw [List.foldl_cons]
      exact ih _ (keysOf_bump_nodup m s.participantId s.score h)
  exact hgen scores [] (by simp [keysOf])

theorem lookupTot_participantTotals (scores : List Score) (pid : String) :
    lookupTot (participantTotals scores) pid =
      if scores.any (fun x => x.participantId == pid) = true then
        some (sumScoresFor scores pid)
      else none := by
  rw [participantTotals, lookupTot_foldl_bump]
  have hkeys : pid ∉ keysOf ([] : List (String × ℚ)) := by simp [keysOf]
  by_cases h : scores.any (fun x => x.participantId == pid) = true
  · rw [if_pos (Or.inr h), if_pos h]
    simp [lookupTot]
  · have : ¬(pid ∈ keysOf ([] : List (String × ℚ)) ∨
        scores.any (fun x => x.participantId == pid) = true) := by
      rintro (hx | hx)
      · exact hkeys hx
      · exact h hx
    rw [if_neg this, if_neg h]

theorem mem_overallStandings (scores : List Score) (participants : List Participant)
    (st : Standing) :
    st ∈ overallStandings scores participants ↔
      ∃ kv ∈ participantTotals scores,
        st = ⟨kv.1, standingName participants kv.1, standingHouse participants kv.1, kv.2⟩ := by
  unfold overallStandings
  rw [(perm_sortDescBy Standing.totalScore _).mem_iff, List.mem_map]
  constructor
  · rintro ⟨kv, hkv, rfl⟩
    exact ⟨kv, hkv, rfl⟩
  · rintro ⟨kv, hkv, rfl⟩
    exact ⟨kv, hkv, rfl⟩

theorem lookupTot_mem (m : List (String × ℚ)) (q : String) (t : ℚ)
    (h : lookupTot m q = some t) : (q, t) ∈ m := by
  induction m with
  | nil => cases h
  | cons kv rest ih =>
    obtain ⟨k, x⟩ := kv
    rw [lookupTot] at h
    by_cases hk : k = q
    · rw [if_pos hk] at h
      injection h with h
      rw [List.mem_cons]
      left
      rw [← hk, ← h]
    · rw [if_neg hk] at h
      exact List.mem_cons_of_mem _ (ih h)

/-- C4: overall standings give every participant that has at least one score
record a totalScore equal to the sum of that participant's score values
across all events, contain no participant without a score record, are
ordered descending by totalScore, show the "Unknown"/"N/A" placeholders for
a participantId with no participant record, and on the claim's example
({(E1,P1,10), (E2,P1,5), (E1,P2,7)}) rank P1 with 15 above P2 with 7. -/
theorem C4_overall_standings_correct (scores : List Score)
    (participants : List Participant) (pid : String) :
    (∀ st ∈ overallStandings scores participants,
      st.totalScore = sumScoresFor scores st.participantId) ∧
    ((∃ st ∈ overallStandings scores participants, st.participantId = pid) ↔
      ∃ s ∈ scores, s.participantId = pid) ∧
    (overallStandings scores participants).Pairwise
      (fun a b => b.totalScore ≤ a.totalScore) ∧
    (∀ st ∈ overallStandings scores participants,
      (∀ p ∈ participants, p.id ≠ st.participantId) →
        st.name = "Unknown" ∧ st.house = "N/A") ∧
    (overallStandings
        [⟨"s1", "E1", "P1", 10, 0⟩, ⟨"s2", "E2", "P1", 5, 0⟩, ⟨"s3", "E1", "P2", 7, 0⟩]
        [⟨"P1", "Alice", "Red"⟩, ⟨"P2", "Bob", "Blue"⟩]).map
          (fun st => (st.participantId, st.totalScore)) =
      [("P1", (15 : ℚ)), ("P2", 7)] := by
  refine ⟨?_, ?_, ?_, ?_, ?_⟩
  · intro st hst
    rcases (mem_overallStandings scores participants st).mp hst with ⟨kv, hkv, rfl⟩
    simp only
    have hmem : (kv.1, kv.2) ∈ participantTotals scores := by
      rw [Prod.mk.eta]
      exact hkv
    have hl := mem_lookupTot (participantTotals scores)
      (keysOf_participantTotals_nodup scores) kv.1 kv.2 hmem
    rw [lookupTot_participantTotals] at hl
    by_cases h : scores.any (fun x => x.participantId == kv.1) = true
    · rw [if_pos h] at hl
      injection hl with hl
      exact hl.symm
    · rw [if_neg h] at hl
      cases hl
  · constructor
    · rintro ⟨st, hst, hpid⟩
      rcases (mem_overallStandings scores participants st).mp hst with ⟨kv, hkv, rfl⟩
      simp only at hpid
      have hk : pid ∈ keysOf (participantTotals scores) := by
        rw [← hpid]
        exact List.mem_map_of_mem Prod.fst hkv
      have hne : lookupTot (participantTotals scores) pid ≠ none :=
        fun hn => (lookupTot_eq_none_iff _ _).mp hn hk
      rw [lookupTot_participantTotals] at hne
      by_cases hany : scores.any (fun x => x.participantId == pid) = true
      · rw [List.any_eq_true] at hany
        rcases hany with ⟨s, hs, hb⟩
        exact ⟨s, hs, by simpa using hb⟩
      · rw [if_neg hany] at hne
        exact absurd rfl hne
    · rintro ⟨s, hs, hpid⟩
      have hany : scores.any (fun x => x.participantId == pid) = true :=
        List.any_eq_true.mpr ⟨s, hs, by simp [hpid]⟩
      have hl : lookupTot (participantTotals scores) pid =
          some (sumScoresFor scores pid) := by
        rw [lookupTot_participantTotals, if_pos hany]
      have hmem := lookupTot_mem (participantTotals scores) pid
        (sumScoresFor scores pid) hl
      refine ⟨⟨pid, standingName participants pid, standingHouse participants pid,
        sumScoresFor scores pid⟩, ?_, rfl⟩
      rw [mem_overallStandings]
      exact ⟨(pid, sumScoresFor scores pid), hmem, rfl⟩
  · unfold overallStandings
    exact pairwise_sortDescBy Standing.totalScore _
  · intro st hst hmissing
    rcases (mem_overallStandings scores participants st).mp hst with ⟨kv, hkv, rfl⟩
    simp only at hmissing
    have hfind : participants.find? (fun p => p.id == kv.1) = none :=
      List.find?_eq_none.mpr (fun p hp => by simp [hmissing p hp])
    constructor
    · simp only [standingName, hfind]
    · simp only [standingHouse, hfind]
  · norm_num [overallStandings, participantTotals, bumpTotal, sortDescBy, insertDescBy,
      standingName, standingHouse]
